import Mathlib

/-!
Shallow embedding of the TestRepo utility library (validators, strings,
collections, enumerable list, HTTP client) together with proofs of the
specification claims.  Python strings are modelled as `String` / `List Char`,
Python dictionaries as insertion-ordered association lists, Python values as
an inductive `PyVal`, and fallible code as `Except`.
-/

namespace Collections

/-- Models `partition(iterable, predicate)` from src/collections.py: a single
left-to-right pass appending each item to the true-list or the false-list
according to the predicate. -/
def partition (l : List α) (p : α → Bool) : List α × List α :=
  l.foldl (fun acc a => if p a then (acc.1 ++ [a], acc.2) else (acc.1, acc.2 ++ [a])) ([], [])

theorem partition_foldl (p : α → Bool) (l : List α) (t f : List α) :
    l.foldl (fun acc a => if p a then (acc.1 ++ [a], acc.2) else (acc.1, acc.2 ++ [a])) (t, f)
      = (t ++ l.filter p, f ++ l.filter (fun a => !(p a))) := by
  induction l generalizing t f with
  | nil => simp
  | cons a rest ih =>
    by_cases h : p a = true
    · simp [List.foldl_cons, h, ih]
    · simp only [Bool.not_eq_true] at h
      simp [List.foldl_cons, h, ih]

theorem partition_eq_filter (l : List α) (p : α → Bool) :
    partition l p = (l.filter p, l.filter (fun a => !(p a))) := by
  simpa [partition] using partition_foldl p l [] []

end Collections

namespace Validators

/-- Characters removed by `re.sub(r'[\s\-]', '', number)` in
`is_valid_credit_card`: ASCII whitespace and the dash. -/
def isStripChar (c : Char) : Bool :=
  c == ' ' || c == '\t' || c == '\n' || c == '\r'
    || c == Char.ofNat 11 || c == Char.ofNat 12 || c == '-'

/-- Numeric value of a decimal digit character. -/
def digitVal (c : Char) : Nat :=
  c.toNat - '0'.toNat

/-- The stripped credit-card number: the input with whitespace and dashes
removed. -/
def cleanCard (s : String) : List Char :=
  s.toList.filter (fun c => !(isStripChar c))

/-- The doubling step of the Luhn loop: `doubled - 9 if doubled > 9 else
doubled`. -/
def double9 (d : Nat) : Nat :=
  let dd := 2 * d
  if dd > 9 then dd - 9 else dd

/-- Every second element of a list starting with the first, modelling the
Python stride-2 slices `digits[-1::-2]` and `digits[-2::-2]` applied to the
reversed digit list. -/
def everyOther : List α → List α
  | [] => []
  | [a] => [a]
  | a :: _ :: rest => a :: everyOther rest

/-- The Luhn checksum loop of `is_valid_credit_card`: `odd_digits =
digits[-1::-2]` summed unchanged plus `even_digits = digits[-2::-2]` summed
after doubling-and-subtracting-9. -/
def luhnChecksum (digits : List Nat) : Nat :=
  let odd_digits := everyOther digits.reverse
  let even_digits := everyOther (digits.reverse.drop 1)
  odd_digits.sum + (even_digits.map double9).sum

/-- Models `is_valid_credit_card(number)` from src/validators.py: falsy
input is rejected, the number is stripped of whitespace and dashes, non-digit
content or a length outside [13, 19] is rejected, and otherwise the Luhn
checksum must be divisible by 10. -/
def is_valid_credit_card (number : String) : Bool :=
  if number.isEmpty then false
  else
    let cleaned := cleanCard number
    if !(cleaned.all Char.isDigit) || cleaned.length < 13 || cleaned.length > 19 then false
    else luhnChecksum (cleaned.map digitVal) % 10 == 0

/-- The Luhn sum as the spec words it, over the digits listed from the right:
digits at odd positions from the right (1st, 3rd, ...) are added unchanged;
digits at even positions are doubled and reduced by 9 when the double
exceeds 9. -/
def luhnAlt : List Nat → Nat
  | [] => 0
  | [a] => a
  | a :: b :: rest => a + double9 b + luhnAlt rest

theorem everyOther_cons (x : α) (l : List α) :
    everyOther (x :: l) = x :: everyOther (l.drop 1) := by
  cases l <;> rfl

theorem luhnChecksum_eq_alt_rev (r : List Nat) :
    (everyOther r).sum + ((everyOther (r.drop 1)).map double9).sum = luhnAlt r := by
  induction r using luhnAlt.induct with
  | case1 => rfl
  | case2 a => rfl
  | case3 a b rest ih =>
    rw [luhnAlt, ← ih]
    have h1 : everyOther (a :: b :: rest) = a :: everyOther rest := rfl
    have h2 : (a :: b :: rest).drop 1 = b :: rest := rfl
    rw [h1, h2, everyOther_cons]
    simp only [List.sum_cons, List.map_cons]
    omega

theorem luhnChecksum_eq (digits : List Nat) :
    luhnChecksum digits = luhnAlt digits.reverse := by
  rw [luhnChecksum]
  exact luhnChecksum_eq_alt_rev digits.reverse

end Validators

/-- Claim C1: `is_valid_credit_card` strips spaces and dashes, returns false
when the stripped string has a non-digit or a length outside [13, 19], and
otherwise is true exactly when the Luhn checksum — digits at odd positions
from the right unchanged, digits at even positions doubled minus 9 when the
double exceeds 9 — is divisible by 10; in particular it accepts
"4532015112830366" and rejects "1234567890123456". -/
theorem C1_credit_card_spec :
    (∀ s : String,
      Validators.is_valid_credit_card s = true ↔
        (Validators.cleanCard s).all Char.isDigit = true
        ∧ 13 ≤ (Validators.cleanCard s).length
        ∧ (Validators.cleanCard s).length ≤ 19
        ∧ Validators.luhnAlt (((Validators.cleanCard s).map Validators.digitVal).reverse) % 10
            = 0)
    ∧ Validators.is_valid_credit_card "4532015112830366" = true
    ∧ Validators.is_valid_credit_card "1234567890123456" = false := by
  refine ⟨?_, by decide, by decide⟩
  intro s
  by_cases he : s.isEmpty
  · have hs : s = "" := (String.isEmpty_iff s).mp he
    subst hs
    decide
  · rw [Validators.is_valid_credit_card, if_neg he]
    by_cases hc : (!(Validators.cleanCard s).all Char.isDigit
        || decide ((Validators.cleanCard s).length < 13)
        || decide ((Validators.cleanCard s).length > 19)) = true
    · rw [if_pos hc]
      simp only [Bool.or_eq_true, Bool.not_eq_true', decide_eq_true_eq] at hc
      simp only [Bool.false_eq_true, false_iff]
      intro hR
      obtain ⟨h1, h2, h3, _⟩ := hR
      rcases hc with (hc | hc) | hc
      · rw [h1] at hc
        exact absurd hc (by simp)
      · omega
      · omega
    · rw [if_neg hc]
      have hall : (Validators.cleanCard s).all Char.isDigit = true := by
        by_contra hno
        simp only [Bool.not_eq_true] at hno
        exact hc (by simp [hno])
      have h13 : 13 ≤ (Validators.cleanCard s).length := by
        by_contra hno
        have hlt : (Validators.cleanCard s).length < 13 := by omega
        exact hc (by simp [hlt])
      have h19 : (Validators.cleanCard s).length ≤ 19 := by
        by_contra hno
        have hgt : (Validators.cleanCard s).length > 19 := by omega
        exact hc (by simp [hgt])
      simp only [beq_iff_eq]
      rw [Validators.luhnChecksum_eq]
      constructor
      · intro h
        exact ⟨hall, h13, h19, h⟩
      · intro h
        exact h.2.2.2

namespace EnumList

/-- Models `EnumerableList.reduce` from src/enumerable_list.py: with no
initial value the first item seeds the accumulator and an empty list raises
ValueError; with an initial value the fold starts there.  The `_MISSING`
sentinel is modelled by `Option`. -/
def reduce (l : List α) (f : α → α → α) (initial : Option α) : Except String α :=
  match initial with
  | some acc => Except.ok (l.foldl f acc)
  | none =>
    match l with
    | [] => Except.error "reduce() of empty EnumerableList with no initial value"
    | a :: rest => Except.ok (rest.foldl f a)

/-- Models `EnumerableList.first` from src/enumerable_list.py: returns the
head if the list is non-empty, otherwise the default when supplied, otherwise
raises ValueError. -/
def first (l : List α) (default : Option α) : Except String α :=
  match l with
  | a :: _ => Except.ok a
  | [] =>
    match default with
    | none => Except.error "EnumerableList is empty"
    | some d => Except.ok d

end EnumList

/-- Claim C9: reduce with no initial value fails exactly on the empty list and
otherwise left-folds starting from the first item; with an initial value it
never fails and left-folds from that value.  first with no default fails
exactly on the empty list; with a default it returns the default exactly when
the list is empty. -/
theorem C9_reduce_first_spec :
    (∀ (α : Type) (l : List α) (f : α → α → α),
      EnumList.reduce l f none
          = Except.error "reduce() of empty EnumerableList with no initial value"
        ↔ l = [])
    ∧ (∀ (α : Type) (a : α) (rest : List α) (f : α → α → α),
        EnumList.reduce (a :: rest) f none = Except.ok (rest.foldl f a))
    ∧ (∀ (α : Type) (l : List α) (f : α → α → α) (i : α),
        EnumList.reduce l f (some i) = Except.ok (l.foldl f i))
    ∧ (∀ (α : Type) (l : List α),
        EnumList.first l none = Except.error "EnumerableList is empty" ↔ l = [])
    ∧ (∀ (α : Type) (a : α) (rest : List α) (d : Option α),
        EnumList.first (a :: rest) d = Except.ok a)
    ∧ (∀ (α : Type) (d : α), EnumList.first [] (some d) = Except.ok d) := by
  refine ⟨?_, ?_, ?_, ?_, ?_, ?_⟩
  · intro α l f
    cases l <;> simp [EnumList.reduce]
  · intro α a rest f
    rfl
  · intro α l f i
    rfl
  · intro α l
    cases l <;> simp [EnumList.first]
  · intro α a rest d
    rfl
  · intro α d
    rfl

namespace Http

/-- Models the `HttpResponse` dataclass of src/http_client.py (status code,
headers, raw body, final URL); the body is kept abstract as a `String` of
bytes. -/
structure HttpResponse where
  status_code : Nat
  headers : List (String × String)
  body : String
  url : String
  deriving DecidableEq

/-- Models the `HttpResponse.ok` property: status in the 2xx range. -/
def HttpResponse.ok (r : HttpResponse) : Bool :=
  200 ≤ r.status_code && r.status_code < 300

/-- Models the `HttpError` exception of src/http_client.py: a message plus an
optional status code and an optional attached response. -/
structure HttpError where
  message : String
  status_code : Option Nat
  response : Option HttpResponse
  deriving DecidableEq

/-- Outcome of the single blocking `urllib.request.urlopen` call inside
`HttpClient.request`: a successful response, an `HTTPError` (the server
answered with a non-success status, carrying code/reason/headers/body), or a
`URLError` (no response at all, only a reason). -/
inductive TransportResult where
  | success (status : Nat) (headers : List (String × String)) (body : String) (finalUrl : String)
  | httpError (code : Nat) (reason : String) (headers : List (String × String)) (body : String)
  | urlError (reason : String)

/-- Models the configuration fields of `HttpClient` that the request path
reads when building the target URL. -/
structure HttpClient where
  base_url : String

/-- Models the URL construction in `HttpClient.request`:
`f"{self.base_url}{path}" if self.base_url else path`. -/
def buildUrl (c : HttpClient) (path : String) : String :=
  if c.base_url = "" then path else c.base_url ++ path

/-- Models the try/except tail of `HttpClient.request` in src/http_client.py,
parameterised by the outcome `t` of the single transport call: on success the
response is returned; on `HTTPError` an `HttpError` is raised carrying the
reason, the code, and a freshly built `HttpResponse` for that code; on
`URLError` an `HttpError` is raised carrying only the message. -/
def HttpClient.request (c : HttpClient) (path : String) (t : TransportResult) :
    Except HttpError HttpResponse :=
  let url := buildUrl c path
  match t with
  | TransportResult.success st hs b u => Except.ok ⟨st, hs, b, u⟩
  | TransportResult.httpError code reason hs b =>
      Except.error ⟨reason, some code, some ⟨code, hs, b, url⟩⟩
  | TransportResult.urlError reason => Except.error ⟨reason, none, none⟩

end Http

/-- Claim C8: a request has exactly two failure shapes, distinguishable by the
attached response.  A transport-reported non-success status yields an
`HttpError` carrying that status code, the reason string, and an
`HttpResponse` whose `status_code` is that status (for 404 the attached
response is not `ok`); a transport-level failure with no response yields an
`HttpError` with only a message — no status code, no response.  A transport
success never fails, so no other failure shape exists. -/
theorem C8_request_error_shapes :
    (∀ (c : Http.HttpClient) (path : String) (code : Nat) (reason : String)
        (hs : List (String × String)) (b : String),
      Http.HttpClient.request c path (Http.TransportResult.httpError code reason hs b)
        = Except.error ⟨reason, some code, some ⟨code, hs, b, Http.buildUrl c path⟩⟩)
    ∧ (∀ (c : Http.HttpClient) (path : String) (reason : String),
        Http.HttpClient.request c path (Http.TransportResult.urlError reason)
          = Except.error ⟨reason, none, none⟩)
    ∧ (∀ (c : Http.HttpClient) (path : String) (st : Nat)
        (hs : List (String × String)) (b u : String),
        Http.HttpClient.request c path (Http.TransportResult.success st hs b u)
          = Except.ok ⟨st, hs, b, u⟩)
    ∧ (∀ (hs : List (String × String)) (b u : String),
        Http.HttpResponse.ok ⟨404, hs, b, u⟩ = false) := by
  refine ⟨?_, ?_, ?_, ?_⟩
  · intro c path code reason hs b
    rfl
  · intro c path reason
    rfl
  · intro c path st hs b u
    rfl
  · intro hs b u
    rfl

namespace Strings

/-- Models the Python slice `text[-k:]` for a non-negative `k`: for `k = 0`
this is `text[0:]`, the whole string; otherwise the last `k` characters
(all of them when `k` exceeds the length). -/
def pyTailSlice (text : List Char) (k : Nat) : List Char :=
  if k = 0 then text else text.drop (text.length - k)

/-- Models `mask_sensitive(text, visible_chars, mask_char)` from
src/strings.py: empty text yields empty; text of length at most 3 or with
`visible_chars >= len(text)` is returned unchanged; otherwise
`mask_char * (len(text) - visible_chars) + text[-visible_chars:]`. -/
def mask_sensitive (text : List Char) (visible_chars : Nat) (mask_char : Char) : List Char :=
  if text = [] then []
  else if text.length ≤ 3 || visible_chars ≥ text.length then text
  else List.replicate (text.length - visible_chars) mask_char ++ pyTailSlice text visible_chars

end Strings

namespace Strings

/-- Models `truncate(text, max_length, suffix)` from src/strings.py over
character lists: empty text returns empty immediately (before any check);
then `max_length <= len(suffix)` raises ValueError; text within the budget
is returned unchanged; otherwise the first `max_length - len(suffix)`
characters plus the suffix. -/
def truncate (text : List Char) (max_length : Int) (suffix : List Char) :
    Except String (List Char) :=
  if text = [] then Except.ok []
  else if max_length ≤ (suffix.length : Int) then
    Except.error "max_length must be greater than suffix length"
  else if (text.length : Int) ≤ max_length then Except.ok text
  else Except.ok (text.take (max_length - (suffix.length : Int)).toNat ++ suffix)

end Strings

/-- Counterexample to claim C3 as stated: for the empty text the source
returns `""` before the length check, so with `max_length = 0` and suffix
`"..."` we have `max_length <= len(suffix)` and yet `truncate` succeeds
instead of failing. -/
theorem C3_truncate_claim_counterexample :
    (0 : Int) ≤ (([ '.', '.', '.' ] : List Char).length : Int)
    ∧ Strings.truncate [] 0 [ '.', '.', '.' ] = Except.ok [] := by
  constructor
  · decide
  · rfl

/-- Claim C3 (amended): for every NON-EMPTY text, truncate fails with a
length error whenever `max_length <= len(suffix)` (empty text instead always
returns the empty string without failing); when it does not fail, it returns
the text unchanged if `len(text) <= max_length`, and otherwise the first
`max_length - len(suffix)` characters followed by the suffix, a result of
exactly `max_length` characters ending with the suffix. -/
theorem C3_truncate_spec_amended :
    (∀ (text suffix : List Char) (max_length : Int),
      text ≠ [] → max_length ≤ (suffix.length : Int) →
        Strings.truncate text max_length suffix
          = Except.error "max_length must be greater than suffix length")
    ∧ (∀ (suffix : List Char) (max_length : Int),
        Strings.truncate [] max_length suffix = Except.ok [])
    ∧ (∀ (text suffix : List Char) (max_length : Int),
        (suffix.length : Int) < max_length → (text.length : Int) ≤ max_length →
          Strings.truncate text max_length suffix = Except.ok text)
    ∧ (∀ (text suffix : List Char) (max_length : Int),
        (suffix.length : Int) < max_length → max_length < (text.length : Int) →
          Strings.truncate text max_length suffix
              = Except.ok (text.take (max_length - (suffix.length : Int)).toNat ++ suffix)
            ∧ (text.take (max_length - (suffix.length : Int)).toNat ++ suffix).length
                = max_length.toNat) := by
  refine ⟨?_, ?_, ?_, ?_⟩
  · intro text suffix max_length hne hle
    rw [Strings.truncate, if_neg hne, if_pos hle]
  · intro suffix max_length
    rfl
  · intro text suffix max_length hgt hle
    cases text with
    | nil => rfl
    | cons a rest =>
      rw [Strings.truncate, if_neg (by simp), if_neg (by omega), if_pos hle]
  · intro text suffix max_length hgt hlt
    have hne : text ≠ [] := by
      intro he
      rw [he] at hlt
      simp at hlt
      omega
    refine ⟨?_, ?_⟩
    · rw [Strings.truncate, if_neg hne, if_neg (by omega), if_neg (by omega)]
    · have hk : (max_length - (suffix.length : Int)).toNat
          = max_length.toNat - suffix.length := by omega
      have hkle : max_length.toNat - suffix.length ≤ text.length := by omega
      rw [List.length_append, List.length_take, hk]
      omega

/-- Witness for C3 (amended) at `truncate "Hello World" 8 "…"`, which yields
the eight-character string "Hello W…", and at the failing call
`truncate "Hello" 2 "..."`. -/
theorem C3_truncate_spec_amended_witness :
    ((("..." : String).toList.length : Int) < 8 ∧ (8 : Int) < (("Hello World" : String).toList.length : Int)
      ∧ Strings.truncate "Hello World".toList 8 "…".toList
          = Except.ok ("Hello World".toList.take ((8 : Int) - (("…" : String).toList.length : Int)).toNat
              ++ "…".toList)
      ∧ ("Hello World".toList.take ((8 : Int) - (("…" : String).toList.length : Int)).toNat
          ++ "…".toList).length = (8 : Int).toNat)
    ∧ ("Hello" : String).toList ≠ [] ∧ (2 : Int) ≤ (("..." : String).toList.length : Int)
    ∧ Strings.truncate "Hello".toList 2 "...".toList
        = Except.error "max_length must be greater than suffix length" := by
  refine ⟨⟨?_, ?_, ?_⟩, ?_, ?_, ?_⟩
  · decide
  · decide
  · have h := C3_truncate_spec_amended.2.2.2 "Hello World".toList "…".toList 8
      (by decide) (by decide)
    exact ⟨h.1, h.2⟩
  · decide
  · decide
  · exact C3_truncate_spec_amended.1 "Hello".toList "...".toList 2 (by decide) (by decide)

/-- Claim C10: for text longer than 3 characters, `mask_sensitive` with
`visible_chars = 0` does not produce a fully masked string of the original
length: because `text[-0:]` is the whole string, the result is `mask_char`
repeated `len(text)` times followed by the entire original text, of length
`2 * len(text)`. -/
theorem C10_mask_sensitive_zero_visible (text : List Char) (mask_char : Char)
    (h : 3 < text.length) :
    Strings.mask_sensitive text 0 mask_char = List.replicate text.length mask_char ++ text
    ∧ (Strings.mask_sensitive text 0 mask_char).length = 2 * text.length
    ∧ (Strings.mask_sensitive text 0 mask_char).length ≠ text.length := by
  have hne : text ≠ [] := by
    intro he
    rw [he] at h
    simp at h
  have h3 : ¬ text.length ≤ 3 := by omega
  have h0 : ¬ 0 ≥ text.length := by omega
  have hmain : Strings.mask_sensitive text 0 mask_char
      = List.replicate text.length mask_char ++ text := by
    simp [Strings.mask_sensitive, hne, h3, h0, Strings.pyTailSlice]
  refine ⟨hmain, ?_, ?_⟩
  · rw [hmain]
    simp only [List.length_append, List.length_replicate]
    omega
  · rw [hmain]
    simp only [List.length_append, List.length_replicate]
    omega

/-- Witness for C10 at the concrete input "abcd". -/
theorem C10_mask_sensitive_zero_visible_witness :
    3 < ("abcd".toList).length
    ∧ Strings.mask_sensitive "abcd".toList 0 '*'
        = List.replicate ("abcd".toList).length '*' ++ "abcd".toList := by
  refine ⟨by decide, ?_⟩
  exact (C10_mask_sensitive_zero_visible "abcd".toList '*' (by decide)).1

namespace Collections

/-- Model of a Python value as seen by `flatten` in src/collections.py: a
non-iterable atom (`num`), an iterable that the code nevertheless treats as
atomic — str, bytes or dict (`str`), and an expandable nested iterable such
as a list or tuple (`iter`). -/
inductive PyItem where
  | num : Int → PyItem
  | str : String → PyItem
  | iter : List PyItem → PyItem

/-- Models `flatten(iterable, depth)` from src/collections.py: strings,
bytes and dicts are appended unexpanded; any other iterable is recursively
flattened when `depth != 0`, with the new depth `depth - 1` for positive
depth and `-1` (unlimited) otherwise; non-iterables are appended. -/
def flatten (l : List PyItem) (depth : Int) : List PyItem :=
  match l with
  | [] => []
  | PyItem.str s :: rest => PyItem.str s :: flatten rest depth
  | PyItem.iter xs :: rest =>
      if depth ≠ 0 then
        flatten xs (if depth > 0 then depth - 1 else -1) ++ flatten rest depth
      else PyItem.iter xs :: flatten rest depth
  | PyItem.num n :: rest => PyItem.num n :: flatten rest depth
termination_by sizeOf l
decreasing_by all_goals (simp_wf <;> omega)

/-- Decides that a sequence is fully flat: it contains no expandable nested
iterable (atoms and atomic-iterables only). -/
def isFlat (l : List PyItem) : Bool :=
  l.all (fun x => match x with
    | PyItem.iter _ => false
    | _ => true)

end Collections

/-- Claim C6: `flatten` with `depth = 0` returns the input items unchanged as
a list, and `flatten` at unlimited depth (`depth = -1`) returns an already
fully flat sequence unchanged. -/
theorem C6_flatten_depth_zero_and_flat :
    (∀ l : List Collections.PyItem, Collections.flatten l 0 = l)
    ∧ (∀ l : List Collections.PyItem,
        Collections.isFlat l = true → Collections.flatten l (-1) = l) := by
  constructor
  · intro l
    induction l with
    | nil => simp [Collections.flatten]
    | cons a rest ih =>
      cases a <;> simp [Collections.flatten, ih]
  · intro l hl
    induction l with
    | nil => simp [Collections.flatten]
    | cons a rest ih =>
      simp only [Collections.isFlat, List.all_cons, Bool.and_eq_true] at hl
      cases a with
      | num n => simpa [Collections.flatten] using ih hl.2
      | str s => simpa [Collections.flatten] using ih hl.2
      | iter xs => simp at hl

/-- Witness for C6 on the already-flat list `[num 1, str "ab", num (-2)]`. -/
theorem C6_flatten_depth_zero_and_flat_witness :
    Collections.isFlat [Collections.PyItem.num 1, Collections.PyItem.str "ab",
        Collections.PyItem.num (-2)] = true
    ∧ Collections.flatten [Collections.PyItem.num 1, Collections.PyItem.str "ab",
        Collections.PyItem.num (-2)] (-1)
      = [Collections.PyItem.num 1, Collections.PyItem.str "ab", Collections.PyItem.num (-2)] := by
  refine ⟨by decide, ?_⟩
  exact C6_flatten_depth_zero_and_flat.2 _ (by decide)

namespace Collections

/-- Helper for `chunk`: with positive chunk size `sp + 1`, repeatedly slice
off the next `sp + 1` items, exactly as the source loop
`for i in range(0, len(items), size): yield items[i:i+size]` does. -/
def chunksPos (sp : Nat) : List α → List (List α)
  | [] => []
  | a :: rest => (a :: rest.take sp) :: chunksPos sp (rest.drop sp)
termination_by l => l.length
decreasing_by simp [List.length_drop]; omega

/-- Models `chunk(iterable, size)` from src/collections.py, with the lazy
generator fully consumed: a ValueError for `size < 1`, otherwise the list of
successive slices of length `size` (the last possibly shorter). -/
def chunk (l : List α) (size : Int) : Except String (List (List α)) :=
  if size < 1 then Except.error "Chunk size must be positive"
  else Except.ok (chunksPos (size.toNat - 1) l)

theorem chunksPos_join (sp : Nat) (l : List α) : (chunksPos sp l).join = l := by
  induction l using chunksPos.induct sp with
  | case1 => simp [chunksPos]
  | case2 a rest ih =>
    simp [chunksPos, ih]

theorem chunksPos_length (sp : Nat) (l : List α) :
    (chunksPos sp l).length = (l.length + sp) / (sp + 1) := by
  induction l using chunksPos.induct sp with
  | case1 =>
    simp [chunksPos]
    exact (Nat.div_eq_of_lt (by omega)).symm
  | case2 a rest ih =>
    have hlen : (rest.drop sp).length = rest.length - sp := by simp
    rw [chunksPos]
    simp only [List.length_cons, ih, hlen]
    have hstep : rest.length + 1 + sp = rest.length + (sp + 1) := by omega
    rw [hstep, Nat.add_div_right _ (Nat.succ_pos sp)]
    by_cases hc : sp ≤ rest.length
    · rw [Nat.sub_add_cancel hc]
    · have h1 : rest.length - sp = 0 := by omega
      have h2 : rest.length / (sp + 1) = 0 := Nat.div_eq_of_lt (by omega)
      have h3 : sp / (sp + 1) = 0 := Nat.div_eq_of_lt (by omega)
      rw [h1, h2, Nat.zero_add, h3]

theorem chunksPos_ne_nil (sp : Nat) (l : List α) (hl : l ≠ []) :
    chunksPos sp l ≠ [] := by
  cases l with
  | nil => exact absurd rfl hl
  | cons a rest => simp [chunksPos]

theorem chunksPos_dropLast_length (sp : Nat) (l : List α) :
    ∀ c ∈ (chunksPos sp l).dropLast, c.length = sp + 1 := by
  induction l using chunksPos.induct sp with
  | case1 =>
    intro c hc
    simp [chunksPos] at hc
  | case2 a rest ih =>
    intro c hc
    rw [chunksPos] at hc
    by_cases hrest : rest.drop sp = []
    · rw [hrest] at hc
      simp [chunksPos] at hc
    · rw [List.dropLast_cons_of_ne_nil (chunksPos_ne_nil sp _ hrest)] at hc
      rcases List.mem_cons.mp hc with h | h
      · subst h
        have : sp < rest.length := by
          by_contra hn
          exact hrest (List.drop_eq_nil_of_le (by omega))
        simp only [List.length_cons, List.length_take]
        omega
      · exact ih c h

theorem chunksPos_mem_length (sp : Nat) (l : List α) :
    ∀ c ∈ chunksPos sp l, c.length ≤ sp + 1 ∧ c ≠ [] := by
  induction l using chunksPos.induct sp with
  | case1 =>
    intro c hc
    simp [chunksPos] at hc
  | case2 a rest ih =>
    intro c hc
    rw [chunksPos] at hc
    rcases List.mem_cons.mp hc with h | h
    · subst h
      refine ⟨?_, by simp⟩
      simp only [List.length_cons, List.length_take]
      omega
    · exact ih c h

end Collections

/-- Claim C2: for any sequence of length n and any `size >= 1`, `chunk`
succeeds with exactly ceil(n/size) = (n + size - 1) / size groups whose
concatenation is the input, every group except possibly the last having
length `size` and every group non-empty with length at most `size`; for any
`size < 1` it fails with a range error. -/
theorem C2_chunk_spec :
    (∀ (α : Type) (l : List α) (size : Int), 1 ≤ size →
      ∃ cs, Collections.chunk l size = Except.ok cs
        ∧ cs.length = (l.length + size.toNat - 1) / size.toNat
        ∧ cs.join = l
        ∧ (∀ c ∈ cs.dropLast, c.length = size.toNat)
        ∧ (∀ c ∈ cs, c.length ≤ size.toNat ∧ c ≠ []))
    ∧ (∀ (α : Type) (l : List α) (size : Int), size < 1 →
        Collections.chunk l size = Except.error "Chunk size must be positive") := by
  constructor
  · intro α l size hsize
    have hlt : ¬ size < 1 := by omega
    have hs1 : 1 ≤ size.toNat := by omega
    refine ⟨Collections.chunksPos (size.toNat - 1) l, ?_, ?_, ?_, ?_, ?_⟩
    · simp [Collections.chunk, hlt]
    · rw [Collections.chunksPos_length]
      have h1 : size.toNat - 1 + 1 = size.toNat := by omega
      have h2 : l.length + size.toNat - 1 = l.length + (size.toNat - 1) := by omega
      rw [h1, h2]
    · exact Collections.chunksPos_join _ l
    · intro c hc
      have := Collections.chunksPos_dropLast_length (size.toNat - 1) l c hc
      omega
    · intro c hc
      have h := Collections.chunksPos_mem_length (size.toNat - 1) l c hc
      exact ⟨by omega, h.2⟩
  · intro α l size hsize
    simp [Collections.chunk, hsize]

/-- Witness for C2 at `l = [1,2,3,4,5]`, `size = 2` (success branch) and
`size = 0` (failure branch). -/
theorem C2_chunk_spec_witness :
    (1 ≤ (2 : Int)
      ∧ ∃ cs, Collections.chunk [1, 2, 3, 4, 5] (2 : Int) = Except.ok cs
          ∧ cs.length = (([1, 2, 3, 4, 5] : List Nat).length + (2 : Int).toNat - 1) / (2 : Int).toNat
          ∧ cs.join = [1, 2, 3, 4, 5]
          ∧ (∀ c ∈ cs.dropLast, c.length = (2 : Int).toNat)
          ∧ (∀ c ∈ cs, c.length ≤ (2 : Int).toNat ∧ c ≠ []))
    ∧ ((0 : Int) < 1
      ∧ Collections.chunk ([1] : List Nat) (0 : Int)
          = Except.error "Chunk size must be positive") := by
  constructor
  · exact ⟨by decide, C2_chunk_spec.1 Nat [1, 2, 3, 4, 5] 2 (by decide)⟩
  · exact ⟨by decide, C2_chunk_spec.2 Nat [1] 0 (by decide)⟩

namespace Collections

/-- Loop of `unique(iterable, key_func=None)` from src/collections.py with
the identity key: `seen` is the set of already-emitted elements (modelled as
a list queried by membership), and each new element is appended to the
result. -/
def uniqueAux [DecidableEq α] (seen : List α) : List α → List α
  | [] => []
  | a :: rest =>
      if a ∈ seen then uniqueAux seen rest
      else a :: uniqueAux (a :: seen) rest

/-- Models `unique(iterable)` (identity key) from src/collections.py. -/
def unique [DecidableEq α] (l : List α) : List α :=
  uniqueAux [] l

/-- Models `OrderedSet.add` from src/collections.py: inserting into the
backing dict appends a brand-new key at the end and leaves an existing key
(and hence the order) unchanged. -/
def osAdd [DecidableEq α] (items : List α) (a : α) : List α :=
  if a ∈ items then items else items ++ [a]

/-- Models `list(OrderedSet(l))`: `OrderedSet.__init__` adds each element of
`l` in turn to an initially empty backing dict, and iteration returns the
keys in insertion order. -/
def orderedSetOf [DecidableEq α] (l : List α) : List α :=
  l.foldl osAdd []

/-- Deduplication in first-occurrence order, written directly from the
spec's words: keep each element's first occurrence, drop every later equal
element.  Used as the common specification both `unique` and `OrderedSet`
are compared against. -/
def dedupFirst [DecidableEq α] : List α → List α
  | [] => []
  | a :: rest => a :: dedupFirst (rest.filter (fun x => decide (x ≠ a)))
termination_by l => l.length
decreasing_by
  have h := List.length_filter_le (fun x => decide (x ≠ a)) rest
  simp only [List.length_cons]
  omega

theorem uniqueAux_congr [DecidableEq α] (l : List α) (s1 s2 : List α)
    (h : ∀ x, x ∈ s1 ↔ x ∈ s2) : uniqueAux s1 l = uniqueAux s2 l := by
  induction l generalizing s1 s2 with
  | nil => rfl
  | cons a rest ih =>
    by_cases ha : a ∈ s1
    · rw [uniqueAux, if_pos ha, uniqueAux, if_pos ((h a).mp ha)]
      exact ih s1 s2 h
    · have ha2 : a ∉ s2 := fun hc => ha ((h a).mpr hc)
      rw [uniqueAux, if_neg ha, uniqueAux, if_neg ha2]
      exact congrArg (a :: ·) (ih (a :: s1) (a :: s2) (by intro x; simp [h x]))

theorem uniqueAux_eq_dedupFirst [DecidableEq α] (l : List α) (seen : List α) :
    uniqueAux seen l = dedupFirst (l.filter (fun x => decide (x ∉ seen))) := by
  induction l generalizing seen with
  | nil => simp [uniqueAux, dedupFirst]
  | cons a rest ih =>
    rw [List.filter_cons]
    by_cases ha : a ∈ seen
    · rw [uniqueAux, if_pos ha, if_neg (by simp [ha])]
      exact ih seen
    · rw [uniqueAux, if_neg ha, if_pos (by simp [ha])]
      simp only [dedupFirst, List.filter_filter]
      rw [ih (a :: seen)]
      congr 2
      apply List.filter_congr
      intro x _
      by_cases h1 : x = a <;> by_cases h2 : x ∈ seen <;> simp [h1, h2]

theorem unique_eq_dedupFirst [DecidableEq α] (l : List α) :
    unique l = dedupFirst l := by
  rw [unique, uniqueAux_eq_dedupFirst]
  congr 1
  have h : (fun x : α => decide (x ∉ ([] : List α))) = fun _ => true := by
    funext x
    simp
  rw [h]
  exact List.filter_true l

theorem foldl_osAdd_eq [DecidableEq α] (l : List α) (acc : List α) :
    l.foldl osAdd acc = acc ++ uniqueAux acc l := by
  induction l generalizing acc with
  | nil => simp [uniqueAux]
  | cons a rest ih =>
    by_cases ha : a ∈ acc
    · have h1 : osAdd acc a = acc := by simp [osAdd, ha]
      rw [List.foldl_cons, h1, ih]
      congr 1
      simp [uniqueAux, ha]
    · have h1 : osAdd acc a = acc ++ [a] := by simp [osAdd, ha]
      rw [List.foldl_cons, h1, ih]
      rw [uniqueAux_congr rest (acc ++ [a]) (a :: acc) (by intro x; simp; tauto)]
      simp [uniqueAux, ha]

theorem orderedSetOf_eq_unique [DecidableEq α] (l : List α) :
    orderedSetOf l = unique l := by
  rw [orderedSetOf, foldl_osAdd_eq, unique]
  simp

end Collections

/-- Claim C5: `unique` with the identity key and `list(OrderedSet(...))`
agree on every list and both compute deduplication in first-occurrence
order; in particular on `[3,1,4,1,5,9,2,6,5]` both yield
`[3,1,4,5,9,2,6]`. -/
theorem C5_unique_orderedSet_spec :
    (∀ (α : Type) [DecidableEq α] (l : List α),
      Collections.unique l = Collections.dedupFirst l
      ∧ Collections.orderedSetOf l = Collections.dedupFirst l
      ∧ Collections.unique l = Collections.orderedSetOf l)
    ∧ Collections.unique [3, 1, 4, 1, 5, 9, 2, 6, 5] = [3, 1, 4, 5, 9, 2, 6]
    ∧ Collections.orderedSetOf [3, 1, 4, 1, 5, 9, 2, 6, 5] = [3, 1, 4, 5, 9, 2, 6] := by
  refine ⟨?_, by decide, by decide⟩
  intro α _inst l
  refine ⟨Collections.unique_eq_dedupFirst l, ?_, ?_⟩
  · rw [Collections.orderedSetOf_eq_unique]
    exact Collections.unique_eq_dedupFirst l
  · rw [Collections.orderedSetOf_eq_unique]

namespace Collections

/-- Model of a Python value stored in a dictionary, as `deep_merge` in
src/collections.py distinguishes them: a mapping (`dict`, the only case that
recurses), a sequence (`list`, replaced whole), and scalar values. -/
inductive PyVal where
  | int : Int → PyVal
  | str : String → PyVal
  | list : List PyVal → PyVal
  | dict : List (String × PyVal) → PyVal

/-- Insertion-ordered association list modelling a Python dict (string
keys); Python dicts guarantee unique keys and preserve insertion order. -/
abbrev AList := List (String × PyVal)

/-- Models Python dict key lookup (`result[key]` / `key in result`). -/
def lookup? : AList → String → Option PyVal
  | [], _ => none
  | (k0, v0) :: rest, k => if k0 = k then some v0 else lookup? rest k

/-- Models Python dict assignment `result[key] = value`: an existing key
keeps its position and gets the new value, a new key is appended at the
end. -/
def setk : AList → String → PyVal → AList
  | [], k, v => [(k, v)]
  | (k0, v0) :: rest, k, v =>
      if k0 = k then (k0, v) :: rest else (k0, v0) :: setk rest k v

mutual

/-- Models `deep_merge(dict1, dict2)` from src/collections.py: starting from
a copy of `dict1`, iterate over `dict2.items()` in order and assign each key
the merged value.  (The embedding is pure, so the inputs are trivially not
mutated.) -/
def deep_merge : AList → AList → AList
  | result, [] => result
  | result, (k, v) :: rest =>
      deep_merge (setk result k (mergeVal (lookup? result k) v)) rest
termination_by _a b => sizeOf b

/-- The per-key merge step of `deep_merge`: when the key is present in the
accumulated result and both values are dicts, recurse; otherwise the value
from `dict2` wins outright. -/
def mergeVal : Option PyVal → PyVal → PyVal
  | some (PyVal.dict m1), PyVal.dict m2 => PyVal.dict (deep_merge m1 m2)
  | _, v => v
termination_by _o v => sizeOf v

end

theorem lookup_setk_self (d : AList) (k : String) (v : PyVal) :
    lookup? (setk d k v) k = some v := by
  induction d with
  | nil => simp [setk, lookup?]
  | cons kv rest ih =>
    obtain ⟨k0, v0⟩ := kv
    by_cases h : k0 = k
    · simp [setk, h, lookup?]
    · simp [setk, h, lookup?, ih]

theorem lookup_setk_ne (d : AList) (k k' : String) (v : PyVal) (h : k' ≠ k) :
    lookup? (setk d k v) k' = lookup? d k' := by
  induction d with
  | nil =>
    have h2 : k ≠ k' := fun hh => h hh.symm
    simp [setk, lookup?, h2]
  | cons kv rest ih =>
    obtain ⟨k0, v0⟩ := kv
    by_cases h0 : k0 = k
    · subst h0
      have h2 : k0 ≠ k' := fun hh => h hh.symm
      simp [setk, lookup?, h2]
    · simp only [setk, if_neg h0]
      by_cases h1 : k0 = k'
      · simp [lookup?, h1]
      · simp [lookup?, h1, ih]

theorem lookup_none_of_not_mem (d : AList) (k : String) (h : k ∉ d.map Prod.fst) :
    lookup? d k = none := by
  induction d with
  | nil => rfl
  | cons kv rest ih =>
    obtain ⟨k0, v0⟩ := kv
    simp only [List.map_cons, List.mem_cons] at h
    push_neg at h
    simp only [lookup?]
    rw [if_neg (fun hh => h.1 hh.symm)]
    exact ih h.2

theorem lookup_deep_merge (b : AList) (a : AList) (k : String)
    (hb : (b.map Prod.fst).Nodup) :
    lookup? (deep_merge a b) k =
      match lookup? b k with
      | none => lookup? a k
      | some v => some (mergeVal (lookup? a k) v) := by
  induction b generalizing a with
  | nil => simp [deep_merge, lookup?]
  | cons kv rest ih =>
    obtain ⟨k0, v0⟩ := kv
    have hb2 : (k0 :: rest.map Prod.fst).Nodup := hb
    have hparts := List.nodup_cons.mp hb2
    simp only [deep_merge]
    rw [ih _ hparts.2]
    by_cases hkk : k0 = k
    · subst hkk
      have hrest : lookup? rest k0 = none :=
        lookup_none_of_not_mem rest k0 hparts.1
      simp [hrest, lookup_setk_self, lookup?]
    · have hne : k ≠ k0 := fun hh => hkk hh.symm
      rw [lookup_setk_ne _ _ _ _ hne]
      have hcons : lookup? ((k0, v0) :: rest) k = lookup? rest k := by
        simp [lookup?, hkk]
      rw [hcons]

end Collections

/-- Claim C4: looking up any key in `deep_merge a b` (for a duplicate-free
`b`, as Python dicts are) gives the recursive merge when the key maps to
dicts on both sides, the value from `b` outright otherwise when the key is
in `b` (sequences replaced whole, never merged element-wise), and the value
from `a` when the key is not in `b`; the embedding is pure, so neither input
is mutated.  In particular merging `{'a':{'b':1}}` with `{'a':{'c':2}}`
yields `{'a':{'b':1,'c':2}}`, and list values are replaced whole. -/
theorem C4_deep_merge_spec :
    (∀ (a b : Collections.AList) (k : String), (b.map Prod.fst).Nodup →
      Collections.lookup? (Collections.deep_merge a b) k =
        match Collections.lookup? b k with
        | none => Collections.lookup? a k
        | some v => some (Collections.mergeVal (Collections.lookup? a k) v))
    ∧ (∀ (o : Option Collections.PyVal) (m1 m2 : List (String × Collections.PyVal)),
        o = some (Collections.PyVal.dict m1) →
          Collections.mergeVal o (Collections.PyVal.dict m2)
            = Collections.PyVal.dict (Collections.deep_merge m1 m2))
    ∧ (∀ (o : Option Collections.PyVal) (v : Collections.PyVal),
        (∀ m, v ≠ Collections.PyVal.dict m) → Collections.mergeVal o v = v)
    ∧ (∀ (o : Option Collections.PyVal) (v : Collections.PyVal),
        (∀ m, o ≠ some (Collections.PyVal.dict m)) → Collections.mergeVal o v = v)
    ∧ Collections.deep_merge [("a", Collections.PyVal.dict [("b", Collections.PyVal.int 1)])]
        [("a", Collections.PyVal.dict [("c", Collections.PyVal.int 2)])]
      = [("a", Collections.PyVal.dict
            [("b", Collections.PyVal.int 1), ("c", Collections.PyVal.int 2)])]
    ∧ Collections.deep_merge [("a", Collections.PyVal.list [Collections.PyVal.int 1])]
        [("a", Collections.PyVal.list [Collections.PyVal.int 2])]
      = [("a", Collections.PyVal.list [Collections.PyVal.int 2])] := by
  refine ⟨?_, ?_, ?_, ?_, ?_, ?_⟩
  · intro a b k hb
    exact Collections.lookup_deep_merge b a k hb
  · intro o m1 m2 ho
    subst ho
    simp [Collections.mergeVal]
  · intro o v hv
    cases o with
    | none => cases v <;> simp [Collections.mergeVal]
    | some pv =>
      cases pv <;> cases v <;>
        first
          | exact absurd rfl (hv _)
          | simp [Collections.mergeVal]
  · intro o v ho
    cases o with
    | none => cases v <;> simp [Collections.mergeVal]
    | some pv =>
      cases pv <;> cases v <;>
        first
          | exact absurd rfl (ho _)
          | simp [Collections.mergeVal]
  · simp [Collections.deep_merge, Collections.mergeVal, Collections.setk, Collections.lookup?]
  · simp [Collections.deep_merge, Collections.mergeVal, Collections.setk, Collections.lookup?]

/-- Witness for C4 on the concrete one-entry dict `b = {"x": 1}` with empty
`a` and key "x". -/
theorem C4_deep_merge_spec_witness :
    (([("x", Collections.PyVal.int 1)] : Collections.AList).map Prod.fst).Nodup
    ∧ Collections.lookup?
        (Collections.deep_merge [] [("x", Collections.PyVal.int 1)]) "x"
      = match Collections.lookup? ([("x", Collections.PyVal.int 1)] : Collections.AList) "x" with
        | none => Collections.lookup? ([] : Collections.AList) "x"
        | some v => some (Collections.mergeVal (Collections.lookup? ([] : Collections.AList) "x") v) := by
  refine ⟨by decide, ?_⟩
  exact C4_deep_merge_spec.1 [] [("x", Collections.PyVal.int 1)] "x" (by decide)

/-- Claim C7: partition returns (true-items, false-items) — the elements
satisfying respectively falsifying the predicate, each in original relative
order — and together they form a permutation of the input; in particular
`partition [1,2,3,4,5,6] is_even = ([2,4,6],[1,3,5])`. -/
theorem C7_partition_spec :
    (∀ (α : Type) (l : List α) (p : α → Bool),
      (Collections.partition l p).1 = l.filter p
      ∧ (Collections.partition l p).2 = l.filter (fun a => !(p a))
      ∧ List.Perm ((Collections.partition l p).1 ++ (Collections.partition l p).2) l)
    ∧ Collections.partition [1, 2, 3, 4, 5, 6] (fun n => n % 2 == 0) = ([2, 4, 6], [1, 3, 5]) := by
  constructor
  · intro α l p
    rw [Collections.partition_eq_filter]
    exact ⟨rfl, rfl, List.filter_append_perm p l⟩
  · decide
